import Mathlib

/-!
Verification of the message-validation engine of the
Building-a-PocketOption-Trading-Bot repository.

The visible Python file `BinaryOptionsToolsV2/validator.py` is a thin
wrapper around a native `RawValidator` extension whose evaluation code is
not shipped in source form.  The wrapper (`Validator.__init__`,
`Validator.check`, `Validator.raw_validator` and the static factories) is
embedded here from the Python source; the underlying predicate tree, its
construction-time behaviour and its evaluation semantics are modelled
from the specification (variants Always/Regex/StartsWith/EndsWith/
Contains/Not/All/Any/Custom; short-circuiting left-to-right evaluation;
recoverable construction errors; fatal evaluation faults for custom
predicates that violate their contract).

Messages are modelled as `List Char`.  Evaluation returns
`Option Bool × List Nat`: the first component is `some b` for a normal
boolean result and `none` for a fatal fault coming from a contract
violation inside a `custom` predicate; the second component records, in
order, the labels of the custom predicates that were actually invoked,
which makes the short-circuit property stateable.
-/

/-- Modelled from the spec: the outcome of calling a caller-supplied
custom predicate.  The contract requires a synchronous call returning a
boolean; raising an exception, returning a non-boolean value, or being
non-synchronous all violate the contract. -/
inductive CustomResult where
  | ok (b : Bool)
  | exc
  | wrongType
  | nonSync
deriving DecidableEq

/-- A custom-predicate outcome violates the contract iff it is not a
boolean return. -/
def CustomResult.violates : CustomResult → Bool
  | .ok _ => false
  | .exc => true
  | .wrongType => true
  | .nonSync => true

/-- Modelled from the spec: byte/char-exact test that a message begins
with a literal (second argument is the literal). -/
def listStartsWith : List Char → List Char → Bool
  | _, [] => true
  | [], _ :: _ => false
  | c :: cs, p :: ps => c == p && listStartsWith cs ps

/-- Modelled from the spec: byte/char-exact test that a message ends with
a literal suffix. -/
def listEndsWith (s suf : List Char) : Bool :=
  listStartsWith s.reverse suf.reverse

/-- Modelled from the spec: test that a literal substring occurs anywhere
in the message. -/
def listContains : List Char → List Char → Bool
  | [], sub => listStartsWith [] sub
  | c :: rest, sub => listStartsWith (c :: rest) sub || listContains rest sub

mutual
/-- Modelled from the spec: matcher for a small regular-expression
dialect (literal characters, the wildcard dot, and star on the previous
atom), matching a pattern against the beginning of a string. -/
def matchHere : List Char → List Char → Bool
  | [], _ => true
  | c :: '*' :: ps, s => matchStar c ps s
  | '.' :: ps, _ :: s => matchHere ps s
  | pc :: ps, c :: s => pc == c && matchHere ps s
  | _ :: _, [] => false
termination_by p s => 2 * (p.length + s.length) + 1
/-- Modelled from the spec: helper of `matchHere` implementing the star
quantifier by consuming zero or more matching characters. -/
def matchStar (c : Char) (ps s : List Char) : Bool :=
  matchHere ps s ||
    (match s with
     | [] => false
     | x :: rest => (c == '.' || c == x) && matchStar c ps rest)
termination_by 2 * (ps.length + s.length) + 2
end

/-- Modelled from the spec: a regex pattern matches iff it has at least
one match anywhere in the message (search over every start position). -/
def searchFrom (pat : List Char) (s : List Char) : Bool :=
  matchHere pat s ||
    (match s with
     | [] => false
     | _ :: rest => searchFrom pat rest)

/-- Modelled from the spec: helper for the construction-time syntactic
validity check of a regex pattern — parentheses must balance and no
escape may dangle at the end of the pattern. -/
def parenBalance : List Char → Nat → Bool
  | [], d => d == 0
  | ['\\'], _ => false
  | '\\' :: _ :: rest, d => parenBalance rest d
  | '(' :: rest, d => parenBalance rest (d + 1)
  | ')' :: rest, d => decide (0 < d) && parenBalance rest (d - 1)
  | _ :: rest, d => parenBalance rest d

/-- Modelled from the spec: construction-time syntactic validity of a
regex pattern (balanced parentheses, no dangling escape, no leading
star quantifier). -/
def patternValid (p : List Char) : Bool :=
  parenBalance p 0 &&
    (match p with
     | '*' :: _ => false
     | _ => true)

mutual
/-- Modelled from the spec: the `RawValidator` predicate expression tree
(the native extension's closed variant set, plus the `custom` escape
hatch).  Custom leaves carry a label so that their invocation can be
traced. -/
inductive RawValidator : Type where
  | always : RawValidator
  | regex (pat : List Char) : RawValidator
  | starts_with (p : List Char) : RawValidator
  | ends_with (s : List Char) : RawValidator
  | contains (sub : List Char) : RawValidator
  | ne (child : RawValidator) : RawValidator
  | all (children : VList) : RawValidator
  | any (children : VList) : RawValidator
  | custom (label : Nat) (func : List Char → CustomResult) : RawValidator
/-- Sequence of child validators of an `all`/`any` combinator node. -/
inductive VList : Type where
  | nil : VList
  | cons (head : RawValidator) (tail : VList) : VList
end

/-- Convert a Lean list of validators into a combinator child sequence. -/
def ofVList : List RawValidator → VList
  | [] => .nil
  | v :: vs => .cons v (ofVList vs)

mutual
/-- Modelled from the spec: recursive bottom-up evaluation of the tree.
Returns `(some b, t)` for a normal boolean result and `(none, t)` for a
fatal fault raised by a contract-violating custom predicate; `t` lists,
in order, the labels of the custom predicates actually invoked.  `all`
and `any` short-circuit left-to-right. -/
def checkT : RawValidator → List Char → Option Bool × List Nat
  | .always, _ => (some true, [])
  | .regex pat, m => (some (searchFrom pat m), [])
  | .starts_with p, m => (some (listStartsWith m p), [])
  | .ends_with s, m => (some (listEndsWith m s), [])
  | .contains sub, m => (some (listContains m sub), [])
  | .ne c, m =>
      match checkT c m with
      | (some b, t) => (some (!b), t)
      | (none, t) => (none, t)
  | .all cs, m => checkAllL cs m
  | .any cs, m => checkAnyL cs m
  | .custom l f, m =>
      match f m with
      | .ok b => (some b, [l])
      | _ => (none, [l])
/-- Left-to-right short-circuit conjunction over the children: stop at
the first child that is false or faults. -/
def checkAllL : VList → List Char → Option Bool × List Nat
  | .nil, _ => (some true, [])
  | .cons c cs, m =>
      match checkT c m with
      | (some true, t) =>
          match checkAllL cs m with
          | (r, t2) => (r, t ++ t2)
      | (some false, t) => (some false, t)
      | (none, t) => (none, t)
/-- Left-to-right short-circuit disjunction over the children: stop at
the first child that is true or faults. -/
def checkAnyL : VList → List Char → Option Bool × List Nat
  | .nil, _ => (some false, [])
  | .cons c cs, m =>
      match checkT c m with
      | (some false, t) =>
          match checkAnyL cs m with
          | (r, t2) => (r, t ++ t2)
      | (some true, t) => (some true, t)
      | (none, t) => (none, t)
end

/-- The boolean outcome of evaluating a raw validator on a message
(`none` when evaluation faults fatally). -/
def RawValidator.check (v : RawValidator) (m : List Char) : Option Bool :=
  (checkT v m).1

/-- The labels of the custom predicates invoked while evaluating a raw
validator on a message, in invocation order. -/
def RawValidator.invoked (v : RawValidator) (m : List Char) : List Nat :=
  (checkT v m).2

/-- Modelled from the spec: the distinct recoverable error kind reported
when a regex pattern fails to compile at construction time. -/
inductive ConstructionError : Type where
  | invalidPatternError : ConstructionError
deriving DecidableEq

/-- Modelled from the spec: `RawValidator.regex` compiles the pattern at
construction time and fails fast with `InvalidPatternError` when the
pattern is not syntactically valid (fail fast, not at evaluation time). -/
def RawValidator.regexBuild (pat : List Char) :
    Except ConstructionError RawValidator :=
  if patternValid pat then .ok (.regex pat) else .error .invalidPatternError

/-- Modelled from the spec: the Python-level outcome of a `check` call as
seen by the caller — a boolean value, an ordinary Python exception, or
the fatal foreign-call abort (Rust panic) that Python cannot intercept. -/
inductive PyResult : Type where
  | val (b : Bool) : PyResult
  | pythonError : PyResult
  | rustPanic : PyResult
deriving DecidableEq

/-- Map the evaluation outcome to what the Python caller observes: a
normal boolean result, or the fatal foreign-call abort. -/
def toPyResult : Option Bool → PyResult
  | some b => .val b
  | none => .rustPanic

/-- Modelled from the spec: a caller's normal error-handling construct (a
try/except block) recovers ordinary Python exceptions by substituting a
fallback outcome, but cannot intercept the fatal foreign-call abort. -/
def tryExcept (r fallback : PyResult) : PyResult :=
  match r with
  | .pythonError => fallback
  | .val b => .val b
  | .rustPanic => .rustPanic

/-- The Python `Validator` class of `validator.py`: a wrapper holding the
underlying raw validator set at construction. -/
structure Validator : Type where
  _validator : RawValidator

/-- `Validator.check` from `validator.py`: delegates to the underlying
raw validator. -/
def Validator.check (v : Validator) (m : List Char) : Option Bool :=
  RawValidator.check v._validator m

/-- The labels of the custom predicates invoked while evaluating the
wrapped validator. -/
def Validator.invoked (v : Validator) (m : List Char) : List Nat :=
  RawValidator.invoked v._validator m

/-- The `raw_validator` property from `validator.py`: returns the
underlying raw validator instance. -/
def Validator.raw_validator (v : Validator) : RawValidator :=
  v._validator

/-- `Validator.__init__` from `validator.py`: the default validator that
accepts all messages. -/
def Validator.default : Validator :=
  ⟨.always⟩

/-- `Validator.regex` from `validator.py`, on top of the spec-modelled
raw construction: propagates the construction-time error. -/
def Validator.regex (pat : List Char) : Except ConstructionError Validator :=
  match RawValidator.regexBuild pat with
  | .ok rv => .ok ⟨rv⟩
  | .error e => .error e

/-- `Validator.starts_with` from `validator.py`. -/
def Validator.starts_with (p : List Char) : Validator :=
  ⟨.starts_with p⟩

/-- `Validator.ends_with` from `validator.py`. -/
def Validator.ends_with (s : List Char) : Validator :=
  ⟨.ends_with s⟩

/-- `Validator.contains` from `validator.py`. -/
def Validator.contains (sub : List Char) : Validator :=
  ⟨.contains sub⟩

/-- `Validator.ne` from `validator.py`: wraps the argument's raw
validator in the negation node. -/
def Validator.ne (v : Validator) : Validator :=
  ⟨.ne v._validator⟩

/-- `Validator.all` from `validator.py`: collects the children's raw
validators, in order, under a conjunction node. -/
def Validator.all (vs : List Validator) : Validator :=
  ⟨.all (ofVList (vs.map Validator.raw_validator))⟩

/-- `Validator.any` from `validator.py`: collects the children's raw
validators, in order, under a disjunction node. -/
def Validator.any (vs : List Validator) : Validator :=
  ⟨.any (ofVList (vs.map Validator.raw_validator))⟩

/-- `Validator.custom` from `validator.py`: wraps a caller-supplied
predicate (labelled here so its invocation can be traced). -/
def Validator.custom (label : Nat) (func : List Char → CustomResult) :
    Validator :=
  ⟨.custom label func⟩

/-- Modelled from the spec: a construction session holding the already
built validators; attempting to build a regex validator either appends
the new validator on success or reports the construction error, leaving
the previously built validators untouched. -/
def buildRegexSession (st : List Validator) (pat : List Char) :
    List Validator × Option ConstructionError :=
  match Validator.regex pat with
  | .ok v => (st ++ [v], none)
  | .error e => (st, some e)

/-! ## Helper lemmas -/

/-- The empty literal is a prefix of every message. -/
theorem listStartsWith_nil (s : List Char) : listStartsWith s [] = true := by
  cases s <;> rfl

/-- The empty literal is a substring of every message. -/
theorem listContains_nil (s : List Char) : listContains s [] = true := by
  induction s with
  | nil => rfl
  | cons c rest ih => simp [listContains, listStartsWith_nil, ih]

/-- `List.all` is invariant under permutation of the list. -/
theorem perm_all_eq {α : Type} {l l' : List α} (h : l.Perm l') (p : α → Bool) :
    l.all p = l'.all p := by
  induction h with
  | nil => rfl
  | cons x _ ih => simp [List.all_cons, ih]
  | swap x y l =>
      simp only [List.all_cons, ← Bool.and_assoc]
      rw [Bool.and_comm (p y) (p x)]
  | trans _ _ ih1 ih2 => rw [ih1, ih2]

/-- `List.any` is invariant under permutation of the list. -/
theorem perm_any_eq {α : Type} {l l' : List α} (h : l.Perm l') (p : α → Bool) :
    l.any p = l'.any p := by
  induction h with
  | nil => rfl
  | cons x _ ih => simp [List.any_cons, ih]
  | swap x y l =>
      simp only [List.any_cons, ← Bool.or_assoc]
      rw [Bool.or_comm (p y) (p x)]
  | trans _ _ ih1 ih2 => rw [ih1, ih2]

/-- When every child evaluates to a boolean, the conjunction node
evaluates to the boolean conjunction of its children's results. -/
theorem checkAllL_eq_all (m : List Char) (l : List RawValidator)
    (hdef : ∀ c ∈ l, (RawValidator.check c m).isSome) :
    (checkAllL (ofVList l) m).1 =
      some (l.all fun c => RawValidator.check c m == some true) := by
  induction l with
  | nil => rfl
  | cons c rest ih =>
    have hc := hdef c (List.mem_cons_self c rest)
    rcases hp : checkT c m with ⟨o, t⟩
    simp only [RawValidator.check, hp] at hc
    rcases o with _ | b
    · simp at hc
    have hrest := ih fun x hx => hdef x (List.mem_cons_of_mem c hx)
    cases b
    · simp [ofVList, checkAllL, hp, List.all_cons, RawValidator.check]
    · rcases hq : checkAllL (ofVList rest) m with ⟨r, t2⟩
      rw [hq] at hrest
      simp at hrest
      simp [ofVList, checkAllL, hp, hq, List.all_cons, RawValidator.check,
        hrest]

/-- When every child evaluates to a boolean, the disjunction node
evaluates to the boolean disjunction of its children's results. -/
theorem checkAnyL_eq_any (m : List Char) (l : List RawValidator)
    (hdef : ∀ c ∈ l, (RawValidator.check c m).isSome) :
    (checkAnyL (ofVList l) m).1 =
      some (l.any fun c => RawValidator.check c m == some true) := by
  induction l with
  | nil => rfl
  | cons c rest ih =>
    have hc := hdef c (List.mem_cons_self c rest)
    rcases hp : checkT c m with ⟨o, t⟩
    simp only [RawValidator.check, hp] at hc
    rcases o with _ | b
    · simp at hc
    have hrest := ih fun x hx => hdef x (List.mem_cons_of_mem c hx)
    cases b
    · rcases hq : checkAnyL (ofVList rest) m with ⟨r, t2⟩
      rw [hq] at hrest
      simp at hrest
      simp [ofVList, checkAnyL, hp, hq, List.any_cons, RawValidator.check,
        hrest]
    · simp [ofVList, checkAnyL, hp, List.any_cons, RawValidator.check]

/-! ## Claim theorems -/

/-- C8: the default Validator (the `Always` variant, produced by the
default construction with no arguments) checks every text message to
true, including the empty string. -/
theorem default_checks_every_message_true (m : List Char) :
    Validator.default.check m = some true ∧
    Validator.default.check [] = some true :=
  ⟨rfl, rfl⟩

/-- C3: for every message, the conjunction combinator applied to the
empty sequence of children checks to true (vacuous truth), and the
disjunction combinator applied to the empty sequence checks to false. -/
theorem empty_all_true_empty_any_false (m : List Char) :
    (Validator.all []).check m = some true ∧
    (Validator.any []).check m = some false :=
  ⟨rfl, rfl⟩

/-- C7: for every message, including the empty one, the Validators built
from an empty-string argument via `contains`, `starts_with` and
`ends_with` each check the message to true. -/
theorem empty_literal_matches_everything (m : List Char) :
    (Validator.contains []).check m = some true ∧
    (Validator.starts_with []).check m = some true ∧
    (Validator.ends_with []).check m = some true := by
  refine ⟨?_, ?_, ?_⟩ <;>
    simp [Validator.check, Validator.contains, Validator.starts_with,
      Validator.ends_with, RawValidator.check, checkT, listEndsWith,
      listStartsWith_nil, listContains_nil]

/-- C10: for every Validator and message, the public `check` method
returns exactly the result of checking the `raw_validator` property: both
expose the single underlying validator set at construction and the
wrapper adds no extra logic between them. -/
theorem check_eq_raw_validator_check (v : Validator) (m : List Char) :
    Validator.check v m = RawValidator.check (Validator.raw_validator v) m :=
  rfl

/-- C2: the negation combinator (`ne` in the code) applied to a Validator
checks a message to the boolean negation of that Validator's check of the
same message. -/
theorem ne_negates_check (v : Validator) (m : List Char) (b : Bool)
    (h : v.check m = some b) :
    (Validator.ne v).check m = some (!b) := by
  unfold Validator.check RawValidator.check at h ⊢
  unfold Validator.ne
  rcases hc : checkT v._validator m with ⟨o, t⟩
  rw [hc] at h
  simp at h
  simp [checkT, hc, h]

/-- C2 witness: `ne` applied to `contains "e"` on the message `"a"`. -/
theorem ne_negates_check_witness :
    (Validator.contains ['e']).check ['a'] = some false ∧
    (Validator.ne (Validator.contains ['e'])).check ['a'] = some (!false) :=
  ⟨rfl, ne_negates_check (Validator.contains ['e']) ['a'] false rfl⟩

/-- C1: for every pair of Validators and every message whose checks both
return booleans, the conjunction combinator over the pair checks the
message to the conjunction of the two results, and the disjunction
combinator checks it to the disjunction — i.e. `all [v1, v2]` is true iff
both are true, and `any [v1, v2]` is true iff at least one is true. -/
theorem all_any_pair_semantics (v1 v2 : Validator) (m : List Char)
    (b1 b2 : Bool) (h1 : v1.check m = some b1) (h2 : v2.check m = some b2) :
    (Validator.all [v1, v2]).check m = some (b1 && b2) ∧
    (Validator.any [v1, v2]).check m = some (b1 || b2) := by
  unfold Validator.check RawValidator.check at h1 h2 ⊢
  unfold Validator.all Validator.any
  rcases hc1 : checkT v1._validator m with ⟨o1, t1⟩
  rcases hc2 : checkT v2._validator m with ⟨o2, t2⟩
  rw [hc1] at h1
  rw [hc2] at h2
  simp at h1 h2
  subst h1 h2
  cases b1 <;> cases b2 <;>
    simp [checkT, checkAllL, checkAnyL, ofVList, List.map,
      Validator.raw_validator, hc1, hc2]

/-- C1 witness: the pair `starts_with "h"`, `contains "x"` on the message
`"h"`, whose checks are `true` and `false`. -/
theorem all_any_pair_semantics_witness :
    (Validator.starts_with ['h']).check ['h'] = some true ∧
    (Validator.contains ['x']).check ['h'] = some false ∧
    ((Validator.all [Validator.starts_with ['h'], Validator.contains ['x']]).check ['h']
        = some (true && false) ∧
      (Validator.any [Validator.starts_with ['h'], Validator.contains ['x']]).check ['h']
        = some (true || false)) :=
  ⟨rfl, rfl,
    all_any_pair_semantics (Validator.starts_with ['h'])
      (Validator.contains ['x']) ['h'] true false rfl rfl⟩

/-- C4: constructing a regex Validator from a syntactically invalid
pattern fails at construction time with the distinct recoverable error
kind `invalidPatternError`, and the failed construction leaves the
sequence of previously built Validators exactly as it was. -/
theorem regex_invalid_pattern_fails_fast (st : List Validator)
    (pat : List Char) (h : patternValid pat = false) :
    Validator.regex pat = .error .invalidPatternError ∧
    buildRegexSession st pat = (st, some .invalidPatternError) := by
  have hb : RawValidator.regexBuild pat = .error .invalidPatternError := by
    simp [RawValidator.regexBuild, h]
  refine ⟨?_, ?_⟩ <;> simp [buildRegexSession, Validator.regex, hb]

/-- C4 witness: the unbalanced pattern `"("` against a session already
holding the default validator. -/
theorem regex_invalid_pattern_fails_fast_witness :
    patternValid ['('] = false ∧
    (Validator.regex ['('] = .error .invalidPatternError ∧
      buildRegexSession [Validator.default] ['('] =
        ([Validator.default], some .invalidPatternError)) :=
  ⟨by decide, regex_invalid_pattern_fails_fast [Validator.default] ['('] (by decide)⟩

/-- C5: evaluation of the combinators short-circuits left-to-right.  If
the first child checks a message to false, the conjunction of it with a
custom-predicate Validator checks to false and the set of invoked custom
predicates is exactly that of the first child — the second child's
predicate function is never invoked; dually, a disjunction whose first
child checks to true stops there and never invokes the custom child. -/
theorem short_circuit_skips_custom (va vo : Validator) (l : Nat)
    (f : List Char → CustomResult) (m : List Char)
    (ha : va.check m = some false) (ho : vo.check m = some true) :
    ((Validator.all [va, Validator.custom l f]).check m = some false ∧
      (Validator.all [va, Validator.custom l f]).invoked m = va.invoked m) ∧
    ((Validator.any [vo, Validator.custom l f]).check m = some true ∧
      (Validator.any [vo, Validator.custom l f]).invoked m = vo.invoked m) := by
  unfold Validator.check RawValidator.check at ha ho
  unfold Validator.all Validator.any Validator.invoked RawValidator.invoked
  rcases hca : checkT va._validator m with ⟨oa, ta⟩
  rcases hco : checkT vo._validator m with ⟨oo, tb⟩
  rw [hca] at ha
  rw [hco] at ho
  simp at ha ho
  subst ha ho
  simp [Validator.check, RawValidator.check, checkT, checkAllL, checkAnyL,
    ofVList, List.map, Validator.raw_validator, Validator.custom, hca, hco]

/-- C5 witness: `contains "z"` (false on `"a"`) followed by a
contract-violating custom predicate labelled 3, and `contains "a"` (true
on `"a"`) followed by the same custom predicate: the combinators return
plain booleans and the custom label is never invoked. -/
theorem short_circuit_skips_custom_witness :
    (Validator.contains ['z']).check ['a'] = some false ∧
    (Validator.contains ['a']).check ['a'] = some true ∧
    (((Validator.all [Validator.contains ['z'],
          Validator.custom 3 (fun _ => .exc)]).check ['a'] = some false ∧
        (Validator.all [Validator.contains ['z'],
          Validator.custom 3 (fun _ => .exc)]).invoked ['a'] =
          (Validator.contains ['z']).invoked ['a']) ∧
      ((Validator.any [Validator.contains ['a'],
          Validator.custom 3 (fun _ => .exc)]).check ['a'] = some true ∧
        (Validator.any [Validator.contains ['a'],
          Validator.custom 3 (fun _ => .exc)]).invoked ['a'] =
          (Validator.contains ['a']).invoked ['a'])) :=
  ⟨rfl, rfl,
    short_circuit_skips_custom (Validator.contains ['z'])
      (Validator.contains ['a']) 3 (fun _ => .exc) ['a'] rfl rfl⟩

/-- C6: evaluating a custom-predicate Validator whose function violates
its contract (raises, returns a non-boolean, or is non-synchronous) is a
fatal fault: the check yields no boolean, the caller observes the fatal
foreign-call abort rather than an ordinary recoverable error, and a
try/except block cannot intercept it. -/
theorem custom_contract_violation_fatal (l : Nat)
    (f : List Char → CustomResult) (m : List Char) (fb : PyResult)
    (hviol : (f m).violates = true) :
    (Validator.custom l f).check m = none ∧
    toPyResult ((Validator.custom l f).check m) = .rustPanic ∧
    tryExcept (toPyResult ((Validator.custom l f).check m)) fb = .rustPanic ∧
    toPyResult ((Validator.custom l f).check m) ≠ .pythonError := by
  have hnone : (Validator.custom l f).check m = none := by
    unfold Validator.check Validator.custom RawValidator.check
    rcases hf : f m with b | _ | _ | _
    · rw [hf] at hviol
      simp [CustomResult.violates] at hviol
    all_goals simp [checkT, hf]
  refine ⟨hnone, ?_, ?_, ?_⟩ <;> simp [hnone, toPyResult, tryExcept]

/-- C6 witness: a custom predicate that raises, evaluated on the empty
message with a try/except fallback of `true`. -/
theorem custom_contract_violation_fatal_witness :
    (CustomResult.exc.violates = true) ∧
    ((Validator.custom 5 (fun _ => .exc)).check [] = none ∧
      toPyResult ((Validator.custom 5 (fun _ => .exc)).check []) = .rustPanic ∧
      tryExcept (toPyResult ((Validator.custom 5 (fun _ => .exc)).check []))
        (.val true) = .rustPanic ∧
      toPyResult ((Validator.custom 5 (fun _ => .exc)).check []) ≠ .pythonError) :=
  ⟨rfl, custom_contract_violation_fatal 5 (fun _ => .exc) [] (.val true) rfl⟩

/-- C9: for every sequence of child Validators whose checks on a message
all return booleans, and every permutation of that sequence, the
conjunction combinator over the permuted sequence checks the message to
the same boolean as over the original sequence, and likewise for the
disjunction combinator. -/
theorem reorder_children_same_boolean (vs vs' : List Validator)
    (m : List Char) (hperm : vs.Perm vs')
    (hdef : ∀ v ∈ vs, (Validator.check v m).isSome) :
    (Validator.all vs).check m = (Validator.all vs').check m ∧
    (Validator.any vs).check m = (Validator.any vs').check m := by
  have hperm' : (vs.map Validator.raw_validator).Perm
      (vs'.map Validator.raw_validator) := hperm.map _
  have hdef1 : ∀ c ∈ vs.map Validator.raw_validator,
      (RawValidator.check c m).isSome := by
    intro c hcm
    rcases List.mem_map.mp hcm with ⟨v, hv, rfl⟩
    exact hdef v hv
  have hdef2 : ∀ c ∈ vs'.map Validator.raw_validator,
      (RawValidator.check c m).isSome := by
    intro c hcm
    exact hdef1 c (hperm'.mem_iff.mpr hcm)
  constructor
  · show (checkAllL (ofVList (vs.map Validator.raw_validator)) m).1 =
      (checkAllL (ofVList (vs'.map Validator.raw_validator)) m).1
    rw [checkAllL_eq_all m _ hdef1, checkAllL_eq_all m _ hdef2,
      perm_all_eq hperm']
  · show (checkAnyL (ofVList (vs.map Validator.raw_validator)) m).1 =
      (checkAnyL (ofVList (vs'.map Validator.raw_validator)) m).1
    rw [checkAnyL_eq_any m _ hdef1, checkAnyL_eq_any m _ hdef2,
      perm_any_eq hperm']

/-- C9 witness: swapping the two children `contains "a"` and
`starts_with "b"` on the message `"b"` leaves both combinator results
unchanged. -/
theorem reorder_children_same_boolean_witness :
    ([Validator.contains ['a'], Validator.starts_with ['b']].Perm
        [Validator.starts_with ['b'], Validator.contains ['a']]) ∧
    ((Validator.all [Validator.contains ['a'],
          Validator.starts_with ['b']]).check ['b'] =
        (Validator.all [Validator.starts_with ['b'],
          Validator.contains ['a']]).check ['b'] ∧
      (Validator.any [Validator.contains ['a'],
          Validator.starts_with ['b']]).check ['b'] =
        (Validator.any [Validator.starts_with ['b'],
          Validator.contains ['a']]).check ['b']) :=
  ⟨List.Perm.swap _ _ _,
    reorder_children_same_boolean
      [Validator.contains ['a'], Validator.starts_with ['b']]
      [Validator.starts_with ['b'], Validator.contains ['a']] ['b']
      (List.Perm.swap _ _ _)
      (by
        intro v hv
        simp only [List.mem_cons, List.not_mem_nil, or_false] at hv
        rcases hv with rfl | rfl <;> rfl)⟩
